import Mathlib

/-!
Verification development for a text-box layout and drawing library.

The library lays out a string against an ordered fallback list of fonts,
measures the tight rectangle the rendered text occupies inside a requested
layout region, and composites the glyphs onto a pixel canvas through a
memoized per-glyph rasterization cache.

Embedding conventions:

* floating-point layout coordinates are idealized as rationals (`ℚ`);
* 8-bit channel values are natural numbers, with an explicit `% 256` where
  the code performs a narrowing cast;
* the external collaborators (rectangle type, layout engine, rasterizer,
  canvas) are modelled from their specified contracts; definitions whose
  doc comment starts with `Modelled from the spec:` are those models.
  The layout engine's reported lines, height and glyph positions are kept
  abstract (they are data carried by the `Layout` value), since the library
  only consumes them.
* fallible operations return `Option` or `Except`; a library-level panic
  (mismatched rasterizer output length) is modelled as the `none` result of
  the whole operation.
-/

namespace Text

/-- Modelled from the spec: a rectangle with origin `(x, y)` and extent
`(w, h)` in layout units; non-negative width and height are required for
validity (a zero extent is a valid rectangle). -/
structure Rect where
  x : ℚ
  y : ℚ
  w : ℚ
  h : ℚ
  deriving DecidableEq

/-- Modelled from the spec: rectangle construction from origin and extent;
fails (returns `none`) exactly when the requested width or height is
negative. -/
def Rect.from_xywh (x y w h : ℚ) : Option Rect :=
  if 0 ≤ w ∧ 0 ≤ h then some ⟨x, y, w, h⟩ else none

/-- Modelled from the spec: shrink a rectangle symmetrically by `dx` per
side horizontally and `dy` per side vertically; fails when the result would
be degenerate (negative extent). -/
def Rect.inset (r : Rect) (dx dy : ℚ) : Option Rect :=
  Rect.from_xywh (r.x + dx) (r.y + dy) (r.w - 2 * dx) (r.h - 2 * dy)

/-- Modelled from the spec: expand a rectangle symmetrically, the inverse
of `Rect.inset`. -/
def Rect.outset (r : Rect) (dx dy : ℚ) : Option Rect :=
  r.inset (-dx) (-dy)

/-- Straight-alpha 8-bit RGBA color, one natural number per channel. -/
structure ColorU8 where
  red : ℕ
  green : ℕ
  blue : ℕ
  alpha : ℕ
  deriving DecidableEq

/-- Premultiplied-alpha 8-bit RGBA color. -/
structure PremultipliedColorU8 where
  red : ℕ
  green : ℕ
  blue : ℕ
  alpha : ℕ
  deriving DecidableEq

/-- Modelled from the spec: premultiplication of a single 8-bit channel
`c` by an 8-bit alpha `a`, i.e. `c * a / 255` rounded to the nearest
integer (halves rounding down). -/
def premultiply_u8 (c a : ℕ) : ℕ := (c * a + 127) / 255

/-- Modelled from the spec: premultiply the RGB channels of a
straight-alpha color by its alpha channel; the alpha channel itself is
unchanged. -/
def ColorU8.premultiply (c : ColorU8) : PremultipliedColorU8 :=
  ⟨premultiply_u8 c.red c.alpha, premultiply_u8 c.green c.alpha,
    premultiply_u8 c.blue c.alpha, c.alpha⟩

/-- Modelled from the spec: straight-alpha color construction from four
8-bit channels. -/
def ColorU8.from_rgba (r g b a : ℕ) : ColorU8 := ⟨r, g, b, a⟩

/-- Modelled from the spec: the opaque white default color, normalized to
8-bit channels. -/
def Color.WHITE_u8 : ColorU8 := ⟨255, 255, 255, 255⟩

/-- Horizontal alignment of text inside its bounds. -/
inductive HorizontalAlign where
  | Left
  | Center
  | Right
  deriving DecidableEq

/-- Vertical alignment of text inside its bounds. -/
inductive VerticalAlign where
  | Top
  | Middle
  | Bottom
  deriving DecidableEq

/-- Error taxonomy of the library. -/
inductive Error where
  | GlyphPixmap
  | Inset
  | Outset
  | Rect
  deriving DecidableEq

/-- Modelled from the spec: the rasterizer's opaque identity for a specific
glyph instance (font, glyph id, size, subpixel position); only its use as a
cache-key component matters here. -/
structure GlyphRasterConfig where
  id : ℕ
  deriving DecidableEq

/-- Modelled from the spec: a positioned glyph reported by the layout
engine. -/
structure GlyphPosition where
  key : GlyphRasterConfig
  font_index : ℕ
  x : ℚ
  y : ℚ
  width : ℕ
  height : ℕ
  deriving DecidableEq

/-- Modelled from the spec: per-line metrics reported by the layout engine;
`padding` is the line's leftover space relative to the maximum width. -/
structure LinePosition where
  padding : ℚ
  deriving DecidableEq

/-- Modelled from the spec: a font, exposing glyph-coverage queries and
rasterization to coverage bytes (the rasterizer's metrics output is unused
by the library and omitted). -/
structure Font where
  has_glyph : Char → Bool
  rasterize_config : GlyphRasterConfig → List ℕ

/-- Font used for out-of-range fallback-list indexing in the model (the
layout engine only reports indices of fonts it was given, so this value is
never reached on engine-conforming inputs). -/
def defaultFont : Font := ⟨fun _ => false, fun _ => []⟩

/-- Modelled from the spec: the settings the layout engine is reset with
(remaining engine settings stay at their defaults and are omitted). -/
structure LayoutSettings where
  x : ℚ
  y : ℚ
  max_width : Option ℚ
  max_height : Option ℚ
  horizontal_align : HorizontalAlign
  vertical_align : VerticalAlign

/-- Modelled from the spec: one styled run fed to the layout engine. -/
structure TextStyle where
  text : List Char
  px : ℚ
  font_index : ℕ
  deriving DecidableEq

/-- Modelled from the spec: the externally owned layout engine state.
`settings` and `runs` record how the library drove the engine; `linesData`,
`heightData` and `glyphsData` are the engine's reported outputs, kept
abstract. -/
structure Layout where
  settings : Option LayoutSettings
  runs : List TextStyle
  linesData : Option (List LinePosition)
  heightData : ℚ
  glyphsData : List GlyphPosition

/-- Modelled from the spec: resetting the engine installs new settings and
discards previously appended runs. -/
def Layout.reset (layout : Layout) (s : LayoutSettings) : Layout :=
  { layout with settings := some s, runs := [] }

/-- Modelled from the spec: appending a styled run to the engine. -/
def Layout.append (layout : Layout) (style : TextStyle) : Layout :=
  { layout with runs := layout.runs ++ [style] }

/-- Modelled from the spec: line metrics reported by the engine (`none`
when the engine has produced no lines). -/
def Layout.lines (layout : Layout) : Option (List LinePosition) := layout.linesData

/-- Modelled from the spec: total laid-out height reported by the engine. -/
def Layout.height (layout : Layout) : ℚ := layout.heightData

/-- Modelled from the spec: positioned glyphs reported by the engine. -/
def Layout.glyphs (layout : Layout) : List GlyphPosition := layout.glyphsData

/-- Bounds state marker: no bounds chosen yet. -/
structure DefaultBounds where

/-- Bounds state: the exact rectangle text is laid out within. -/
structure InnerBounds where
  rect : Rect

/-- Bounds state: a rectangle to be shrunk by half the font size per side
before layout. -/
structure OuterBounds where
  rect : Rect

/-- Default font size. -/
def DEFAULT_SIZE : ℚ := 24

/-- The fluent builder; `B` is the bounds-state marker. The fallback font
list is non-empty by construction (`Builder.new` starts it with one font). -/
structure Builder (B : Type) where
  fonts : List Font
  text : List Char
  bounds : B
  color : ColorU8
  size : ℚ
  halign : HorizontalAlign
  valign : VerticalAlign

/-- Builder construction: one primary font, default styling, no bounds. -/
def Builder.new (font : Font) (text : List Char) : Builder DefaultBounds :=
  { fonts := [font]
    bounds := ⟨⟩
    color := Color.WHITE_u8
    size := DEFAULT_SIZE
    halign := HorizontalAlign.Center
    valign := VerticalAlign.Middle
    text := text }

/-- Append a fallback font (lowest priority) to the fallback list; legal in
any bounds state. -/
def Builder.fallback_font {B : Type} (self : Builder B) (font : Font) : Builder B :=
  { self with fonts := self.fonts ++ [font] }

/-- Transition `Default → Inner`: adopt an explicit inner rectangle. -/
def Builder.bounds_inner (self : Builder DefaultBounds) (bounds : Rect) :
    Builder InnerBounds :=
  { fonts := self.fonts, text := self.text, color := self.color, size := self.size
    halign := self.halign, valign := self.valign, bounds := ⟨bounds⟩ }

/-- Transition `Default → Outer`: adopt an explicit outer rectangle. -/
def Builder.bounds_outer (self : Builder DefaultBounds) (bounds : Rect) :
    Builder OuterBounds :=
  { fonts := self.fonts, text := self.text, color := self.color, size := self.size
    halign := self.halign, valign := self.valign, bounds := ⟨bounds⟩ }

/-- Private transition `Outer → Inner` used by the `Outer`-state build. -/
def Builder.bounds_inner_outer (self : Builder OuterBounds) (bounds : Rect) :
    Builder InnerBounds :=
  { fonts := self.fonts, text := self.text, color := self.color, size := self.size
    halign := self.halign, valign := self.valign, bounds := ⟨bounds⟩ }

/-- Per-character fallback resolution: the position of the first font in
the fallback list that has a glyph for `c`, defaulting to index 0. -/
def fontIdx (fonts : List Font) (c : Char) : ℕ :=
  (fonts.findIdx? (fun font => font.has_glyph c)).getD 0

/-- Grouping of consecutive characters by equal key (the semantics of the
iterator adaptor the build step uses): maximal runs, in original order. -/
def chunkBy (key : Char → ℕ) : List Char → List (ℕ × List Char)
  | [] => []
  | c :: cs =>
    match chunkBy key cs with
    | [] => [(key c, [c])]
    | (k, seg) :: rest =>
      if key c = k then (k, c :: seg) :: rest
      else (key c, [c]) :: (k, seg) :: rest

/-- The resolved text box: resolved font list, style, computed inner
bounds, and the (exclusively borrowed) layout engine state. -/
structure TextBox where
  fonts : List Font
  layout : Layout
  inner_bounds : Rect
  color : ColorU8
  size : ℚ
  halign : HorizontalAlign
  valign : VerticalAlign

/-- Terminal build from the `Inner` state: reset the engine to the inner
rectangle and alignment, feed one styled run per maximal
same-font-resolution chunk of the text, and return the `TextBox`.
Infallible. -/
def Builder.buildInner (self : Builder InnerBounds) (layout : Layout) : TextBox :=
  let layout1 := layout.reset
    { x := self.bounds.rect.x
      y := self.bounds.rect.y
      max_width := some self.bounds.rect.w
      max_height := some self.bounds.rect.h
      horizontal_align := self.halign
      vertical_align := self.valign }
  let layout2 := (chunkBy (fontIdx self.fonts) self.text).foldl
    (fun l p => l.append ⟨p.2, self.size, p.1⟩) layout1
  { fonts := self.fonts
    color := self.color
    size := self.size
    halign := self.halign
    valign := self.valign
    inner_bounds := self.bounds.rect
    layout := layout2 }

/-- Terminal build from the `Outer` state: inset the outer rectangle by
`size / 2` per axis (failing with `Error.Inset` when degenerate), then
build as from the `Inner` state. -/
def Builder.buildOuter (self : Builder OuterBounds) (layout : Layout) :
    Except Error TextBox :=
  match self.bounds.rect.inset (self.size / 2) (self.size / 2) with
  | none => Except.error Error.Inset
  | some inner => Except.ok ((self.bounds_inner_outer inner).buildInner layout)

/-- Terminal build from the `Default` state: construct the full-canvas
rectangle (failing with `Error.Rect`), inset it by `size / 2` per axis
(failing with `Error.Inset`), then build as from the `Inner` state. -/
def Builder.buildDefault (self : Builder DefaultBounds) (layout : Layout)
    (canvas_width canvas_height : ℚ) : Except Error TextBox :=
  match Rect.from_xywh 0 0 canvas_width canvas_height with
  | none => Except.error Error.Rect
  | some rect =>
    match rect.inset (self.size / 2) (self.size / 2) with
    | none => Except.error Error.Inset
    | some inner => Except.ok ((self.bounds_inner inner).buildInner layout)

/-- Tight bounding rectangle of the laid-out text inside the inner bounds:
width is the maximum over lines of (inner width minus line padding), zero
with no lines; height is the engine-reported total height; the origin
distributes the leftover extent according to alignment. Fails with
`Error.Rect` when the rectangle cannot be constructed. -/
def TextBox.rect_inner (self : TextBox) : Except Error Rect :=
  let width := (self.layout.lines.bind
    (fun lines => (lines.map (fun line => self.inner_bounds.w - line.padding)).max?)).getD 0
  let height := self.layout.height
  match Rect.from_xywh
      (self.inner_bounds.x + match self.halign with
        | HorizontalAlign.Left => 0
        | HorizontalAlign.Center => (self.inner_bounds.w - width) / 2
        | HorizontalAlign.Right => self.inner_bounds.w - width)
      (self.inner_bounds.y + match self.valign with
        | VerticalAlign.Top => 0
        | VerticalAlign.Middle => (self.inner_bounds.h - height) / 2
        | VerticalAlign.Bottom => self.inner_bounds.h - height)
      width height with
  | some r => Except.ok r
  | none => Except.error Error.Rect

/-- Tight outer rectangle: `rect_inner` expanded by `size / 2` per axis,
failing with `Error.Outset` when the expansion is degenerate. -/
def TextBox.rect_outer (self : TextBox) : Except Error Rect :=
  match self.rect_inner with
  | Except.error e => Except.error e
  | Except.ok r =>
    match r.outset (self.size / 2) (self.size / 2) with
    | some r2 => Except.ok r2
    | none => Except.error Error.Outset

/-- Modelled from the spec: the canvas pixel buffer; allocation succeeds
exactly for positive dimensions and yields a transparent buffer of
`width * height` pixels. -/
structure Pixmap where
  width : ℕ
  height : ℕ
  pixels : List PremultipliedColorU8
  deriving DecidableEq

/-- Modelled from the spec: pixel-buffer allocation. -/
def Pixmap.new (w h : ℕ) : Option Pixmap :=
  if 0 < w ∧ 0 < h then some ⟨w, h, List.replicate (w * h) ⟨0, 0, 0, 0⟩⟩ else none

/-- Modelled from the spec: one compositing operation onto the target
canvas — a bitmap blitted at a translation; the canvas is the ordered
trace of these operations. -/
structure Blit where
  pixmap : Pixmap
  tx : ℚ
  ty : ℚ
  deriving DecidableEq

/-- Glyph-cache key: rasterization key plus tint color as four discrete
8-bit channels. -/
abbrev CacheKey := GlyphRasterConfig × List ℕ

/-- The glyph cache, as an association list with first-match lookup and
append-only insertion. -/
abbrev GlyphCache := List (CacheKey × Pixmap)

/-- Joint mutable state of a draw call: canvas trace and glyph cache. -/
abbrev DrawState := List Blit × GlyphCache

/-- Cache lookup (first matching key wins). -/
def cacheGet (cache : GlyphCache) (k : CacheKey) : Option Pixmap :=
  (cache.find? (fun e => decide (e.1 = k))).map Prod.snd

/-- The tint color as the four discrete 8-bit channels used in cache keys. -/
def colorKey (color : ColorU8) : List ℕ :=
  [color.red, color.green, color.blue, color.alpha]

/-- Length-strict zip (the semantics of the iterator adaptor the draw loop
uses, which panics on a length mismatch — modelled as `none`). -/
def zipEq {α β : Type} : List α → List β → Option (List (α × β))
  | [], [] => some []
  | x :: xs, y :: ys => (zipEq xs ys).map (fun ps => (x, y) :: ps)
  | _, _ => none

/-- Output pixel for one coverage byte on the cache-miss path: the tint's
RGB channels with alpha `tint.alpha * coverage / 255` (exact integer
division, then the narrowing cast to 8 bits), premultiplied. -/
def computeGlyphPixel (color : ColorU8) (coverage : ℕ) : PremultipliedColorU8 :=
  (ColorU8.from_rgba color.red color.green color.blue
    ((color.alpha * coverage / 255) % 256)).premultiply

/-- Processing of a single positioned glyph during draw: skip zero-area
glyphs; otherwise composite the cached bitmap on a hit, or rasterize,
tint, composite and insert on a miss. -/
def drawGlyph (fonts : List Font) (color : ColorU8) (st : DrawState)
    (glyph : GlyphPosition) : Option (Except Error Unit × DrawState) :=
  if 0 < glyph.width ∧ 0 < glyph.height then
    let key : CacheKey := (glyph.key, colorKey color)
    match cacheGet st.2 key with
    | some pm => some (Except.ok (), (st.1 ++ [⟨pm, glyph.x, glyph.y⟩], st.2))
    | none =>
      let data := (fonts.getD glyph.font_index defaultFont).rasterize_config glyph.key
      match Pixmap.new glyph.width glyph.height with
      | none => some (Except.error Error.GlyphPixmap, st)
      | some gc =>
        match zipEq data gc.pixels with
        | none => none
        | some pairs =>
          let gc2 : Pixmap := { gc with pixels := pairs.map (fun p => computeGlyphPixel color p.1) }
          some (Except.ok (), (st.1 ++ [⟨gc2, glyph.x, glyph.y⟩], st.2 ++ [(key, gc2)]))
  else some (Except.ok (), st)

/-- The draw loop over the positioned glyphs, threading canvas and cache;
an error aborts the loop but keeps the state mutated so far. -/
def drawLoop (fonts : List Font) (color : ColorU8) :
    List GlyphPosition → DrawState → Option (Except Error Unit × DrawState)
  | [], st => some (Except.ok (), st)
  | g :: gs, st =>
    match drawGlyph fonts color st g with
    | none => none
    | some (Except.error e, st2) => some (Except.error e, st2)
    | some (Except.ok _, st2) => drawLoop fonts color gs st2

/-- Draw the text box onto a canvas using (and growing) the caller's glyph
cache; returns the result together with the final canvas trace and cache
(`none` models the library-level panic on a rasterizer contract breach). -/
def TextBox.draw (self : TextBox) (canvas : List Blit) (glyph_cache : GlyphCache) :
    Option (Except Error Unit × DrawState) :=
  drawLoop self.fonts self.color self.layout.glyphs (canvas, glyph_cache)

/-- State-passing form of the shared-borrow method `rect_inner`: the method
reads the receiver and returns it unchanged. -/
def TextBox.rect_inner_st (t : TextBox) : Except Error Rect × TextBox :=
  (t.rect_inner, t)

/-- State-passing form of the shared-borrow method `rect_outer`. -/
def TextBox.rect_outer_st (t : TextBox) : Except Error Rect × TextBox :=
  (t.rect_outer, t)

/-- Specification-side measured width, following the spec text: the maximum
over all laid-out lines of (inner-bounds width minus that line's padding),
and 0 when there are no lines. -/
def specMeasuredWidth (t : TextBox) : ℚ :=
  match t.layout.lines with
  | none => 0
  | some lines =>
    match (lines.map (fun line => t.inner_bounds.w - line.padding)).max? with
    | none => 0
    | some m => m

/-- Specification-side horizontal origin offset for a measured width `w`. -/
def specHOffset (t : TextBox) (w : ℚ) : ℚ :=
  match t.halign with
  | HorizontalAlign.Left => 0
  | HorizontalAlign.Center => (t.inner_bounds.w - w) / 2
  | HorizontalAlign.Right => t.inner_bounds.w - w

/-- Specification-side vertical origin offset for a measured height `h`. -/
def specVOffset (t : TextBox) (h : ℚ) : ℚ :=
  match t.valign with
  | VerticalAlign.Top => 0
  | VerticalAlign.Middle => (t.inner_bounds.h - h) / 2
  | VerticalAlign.Bottom => t.inner_bounds.h - h

/-! Helper lemmas about `chunkBy`, the consecutive grouping used by the
`Inner`-state build. -/

lemma chunkBy_nil_iff (key : Char → ℕ) (l : List Char) :
    chunkBy key l = [] ↔ l = [] := by
  cases l with
  | nil => simp [chunkBy]
  | cons c cs =>
    simp only [chunkBy]
    cases h : chunkBy key cs with
    | nil => simp
    | cons p rest =>
      obtain ⟨k, seg⟩ := p
      by_cases hk : key c = k <;> simp [hk]

lemma chunkBy_flatten (key : Char → ℕ) :
    ∀ l : List Char, ((chunkBy key l).map Prod.snd).flatten = l := by
  intro l
  induction l with
  | nil => rfl
  | cons c cs ih =>
    simp only [chunkBy]
    cases h : chunkBy key cs with
    | nil =>
      have hcs : cs = [] := (chunkBy_nil_iff key cs).mp h
      subst hcs
      simp
    | cons p rest =>
      obtain ⟨k, seg⟩ := p
      rw [h] at ih
      by_cases hk : key c = k <;> simp [hk] <;> simpa using ih

lemma chunkBy_keys (key : Char → ℕ) :
    ∀ l : List Char, ∀ p ∈ chunkBy key l, ∀ c ∈ p.2, key c = p.1 := by
  intro l
  induction l with
  | nil => intro p hp; simp [chunkBy] at hp
  | cons c cs ih =>
    intro p hp d hd
    simp only [chunkBy] at hp
    cases h : chunkBy key cs with
    | nil =>
      rw [h] at hp
      simp at hp
      subst hp
      simp at hd
      subst hd
      rfl
    | cons q rest =>
      obtain ⟨k, seg⟩ := q
      rw [h] at hp
      by_cases hk : key c = k
      · simp [hk] at hp
        rcases hp with hp | hp
        · subst hp
          simp at hd
          rcases hd with hd | hd
          · subst hd; exact hk
          · exact ih (k, seg) (h ▸ List.mem_cons_self _ _) d (by simpa using hd)
        · exact ih p (h ▸ List.mem_cons_of_mem _ hp) d hd
      · simp [hk] at hp
        rcases hp with hp | hp
        · subst hp
          simp at hd
          subst hd
          rfl
        · exact ih p (h ▸ (by simpa using hp)) d hd

lemma chunkBy_seg_ne_nil (key : Char → ℕ) :
    ∀ l : List Char, ∀ p ∈ chunkBy key l, p.2 ≠ [] := by
  intro l
  induction l with
  | nil => intro p hp; simp [chunkBy] at hp
  | cons c cs ih =>
    intro p hp
    simp only [chunkBy] at hp
    cases h : chunkBy key cs with
    | nil =>
      rw [h] at hp
      simp at hp
      subst hp
      simp
    | cons q rest =>
      obtain ⟨k, seg⟩ := q
      rw [h] at hp
      by_cases hk : key c = k
      · simp [hk] at hp
        rcases hp with hp | hp
        · subst hp; simp
        · exact ih p (h ▸ List.mem_cons_of_mem _ hp)
      · simp [hk] at hp
        rcases hp with hp | hp
        · subst hp; simp
        · exact ih p (h ▸ (by simpa using hp))

lemma chunkBy_chain' (key : Char → ℕ) :
    ∀ l : List Char,
      List.Chain' (fun p q : ℕ × List Char => p.1 ≠ q.1) (chunkBy key l) := by
  intro l
  induction l with
  | nil => simp [chunkBy]
  | cons c cs ih =>
    simp only [chunkBy]
    cases h : chunkBy key cs with
    | nil => simp
    | cons q rest =>
      obtain ⟨k, seg⟩ := q
      rw [h] at ih
      dsimp only
      by_cases hk : key c = k
      · rw [if_pos hk]
        rw [List.chain'_cons'] at ih ⊢
        exact ⟨fun y hy => ih.1 y hy, ih.2⟩
      · rw [if_neg hk]
        exact List.chain'_cons.mpr ⟨hk, ih⟩

lemma foldl_append_runs (size : ℚ) :
    ∀ (chunks : List (ℕ × List Char)) (l0 : Layout),
      (chunks.foldl (fun l p => l.append ⟨p.2, size, p.1⟩) l0).runs
        = l0.runs ++ chunks.map (fun p => ⟨p.2, size, p.1⟩) := by
  intro chunks
  induction chunks with
  | nil => intro l0; simp
  | cons p rest ih =>
    intro l0
    simp only [List.foldl_cons, List.map_cons]
    rw [ih]
    simp [Layout.append]

/-- C2: When build is called in the `Inner` state, the input text is
partitioned into maximal runs of consecutive characters resolving to the
same font index (lowest fallback index whose font has the glyph, default
0), each run is fed to the layout engine in original text order tagged
with its resolved font index and the configured size; runs are neither
reordered nor merged across chunk boundaries (adjacent runs have distinct
indices). -/
theorem buildInner_runs_spec (b : Builder InnerBounds) (layout : Layout) :
    (b.buildInner layout).layout.runs
        = (chunkBy (fontIdx b.fonts) b.text).map (fun p => ⟨p.2, b.size, p.1⟩) ∧
    ((chunkBy (fontIdx b.fonts) b.text).map Prod.snd).flatten = b.text ∧
    (∀ p ∈ chunkBy (fontIdx b.fonts) b.text, p.2 ≠ [] ∧ ∀ c ∈ p.2, fontIdx b.fonts c = p.1) ∧
    List.Chain' (fun p q => p.1 ≠ q.1) (chunkBy (fontIdx b.fonts) b.text) := by
  refine ⟨?_, chunkBy_flatten _ _, ?_, chunkBy_chain' _ _⟩
  · show (Builder.buildInner b layout).layout.runs = _
    unfold Builder.buildInner
    rw [foldl_append_runs]
    simp [Layout.reset]
  · intro p hp
    exact ⟨chunkBy_seg_ne_nil _ _ p hp, chunkBy_keys _ _ p hp⟩

/-! Concrete fixtures used by the witness theorems. -/

/-- Test font covering only the character `a`. -/
def fontA : Font := ⟨fun c => c == 'a', fun _ => [0, 128]⟩

/-- Test font covering only the character `b`. -/
def fontB : Font := ⟨fun c => c == 'b', fun _ => [255, 7]⟩

/-- A fresh layout engine state. -/
def emptyLayout : Layout := ⟨none, [], none, 0, []⟩

/-- Two-font builder with text exercising fallback resolution: `a` resolves
to font 0, `b` to font 1, `z` (in no font) defaults to 0. -/
def abBuilder : Builder InnerBounds :=
  ((Builder.new fontA ['a', 'b', 'b', 'z']).fallback_font fontB).bounds_inner ⟨0, 0, 100, 100⟩

theorem buildInner_runs_spec_witness :
    (abBuilder.buildInner emptyLayout).layout.runs
      = [⟨['a'], 24, 0⟩, ⟨['b', 'b'], 24, 1⟩, ⟨['z'], 24, 0⟩] := by
  rw [(buildInner_runs_spec abBuilder emptyLayout).1]
  decide

/-- C8: `Builder.new font text` produces a builder in the `Default` bounds
state (by its return type) whose fallback font list is exactly `[font]`,
whose color is opaque white, size 24, horizontal alignment `Center` and
vertical alignment `Middle`. -/
theorem builder_new_defaults (font : Font) (text : List Char) :
    (Builder.new font text).fonts = [font] ∧
    (Builder.new font text).text = text ∧
    (Builder.new font text).color = ⟨255, 255, 255, 255⟩ ∧
    (Builder.new font text).size = 24 ∧
    (Builder.new font text).halign = HorizontalAlign.Center ∧
    (Builder.new font text).valign = VerticalAlign.Middle :=
  ⟨rfl, rfl, rfl, rfl, rfl, rfl⟩

/-- C10: `rect_inner` and `rect_outer` are pure queries: in the
state-passing embedding of the shared-borrow methods the receiver is
returned unchanged, and a repeated call on the returned state gives the
same result. -/
theorem rect_queries_pure (t : TextBox) :
    (t.rect_inner_st).2 = t ∧ (t.rect_outer_st).2 = t ∧
    ((t.rect_inner_st).2.rect_inner_st).1 = (t.rect_inner_st).1 ∧
    ((t.rect_outer_st).2.rect_outer_st).1 = (t.rect_outer_st).1 :=
  ⟨rfl, rfl, rfl, rfl⟩

/-! Measurement (`rect_inner`) lemmas. -/

lemma measuredWidth_eq (t : TextBox) :
    (t.layout.lines.bind
      (fun lines => (lines.map (fun line => t.inner_bounds.w - line.padding)).max?)).getD 0
      = specMeasuredWidth t := by
  unfold specMeasuredWidth
  cases hl : t.layout.lines with
  | none => simp [hl]
  | some lines =>
    cases hm : (lines.map (fun line => t.inner_bounds.w - line.padding)).max? with
    | none => simp [hl, hm]
    | some m => simp [hl, hm]

/-- C1: `rect_inner()` returns the rectangle whose width is the maximum
over laid-out lines of (inner-bounds width minus line padding) — 0 with no
lines — whose height is the engine-reported total height, and whose origin
is the inner-bounds origin shifted by the alignment-distributed leftover;
it fails with the `Rect` error exactly when such a rectangle cannot be
constructed. -/
theorem rect_inner_spec (t : TextBox) :
    (0 ≤ specMeasuredWidth t ∧ 0 ≤ t.layout.height →
      t.rect_inner = Except.ok ⟨t.inner_bounds.x + specHOffset t (specMeasuredWidth t),
        t.inner_bounds.y + specVOffset t t.layout.height,
        specMeasuredWidth t, t.layout.height⟩) ∧
    (¬(0 ≤ specMeasuredWidth t ∧ 0 ≤ t.layout.height) →
      t.rect_inner = Except.error Error.Rect) := by
  obtain ⟨f, l, ib, col, sz, ha, va⟩ := t
  have hw := measuredWidth_eq ⟨f, l, ib, col, sz, ha, va⟩
  refine ⟨fun h => ?_, fun h => ?_⟩
  · simp only [TextBox.rect_inner, hw, Rect.from_xywh, if_pos h]
    cases ha <;> cases va <;> rfl
  · simp only [TextBox.rect_inner, hw, Rect.from_xywh, if_neg h]

/-- Text box fixture: one line of padding 2 in 10-wide bounds, reported
height 5, left/top alignment. -/
def sampleBox : TextBox :=
  { fonts := [fontA], layout := ⟨none, [], some [⟨2⟩], 5, []⟩
    inner_bounds := ⟨0, 0, 10, 10⟩, color := ⟨255, 255, 255, 255⟩, size := 24
    halign := HorizontalAlign.Left, valign := VerticalAlign.Top }

theorem rect_inner_spec_witness :
    sampleBox.rect_inner = Except.ok ⟨sampleBox.inner_bounds.x
        + specHOffset sampleBox (specMeasuredWidth sampleBox),
      sampleBox.inner_bounds.y + specVOffset sampleBox sampleBox.layout.height,
      specMeasuredWidth sampleBox, sampleBox.layout.height⟩ := by
  refine (rect_inner_spec sampleBox).1 ⟨?_, ?_⟩
  · norm_num [specMeasuredWidth, sampleBox, Layout.lines, List.max?]
  · norm_num [sampleBox, Layout.height]

/-- C3: on the cache-miss path, the output pixel built from a coverage byte
and the tint color has alpha exactly `floor(tint.alpha * coverage / 255)`
(the 8-bit cast is lossless for 8-bit inputs), with the tint's RGB channels
premultiplied by that alpha. -/
theorem computeGlyphPixel_spec (color : ColorU8) (c : ℕ)
    (ha : color.alpha ≤ 255) (hc : c ≤ 255) :
    computeGlyphPixel color c
      = ColorU8.premultiply ⟨color.red, color.green, color.blue, color.alpha * c / 255⟩ ∧
    (computeGlyphPixel color c).alpha = color.alpha * c / 255 := by
  have hle : color.alpha * c / 255 ≤ 255 := by
    calc color.alpha * c / 255 ≤ 255 * 255 / 255 :=
          Nat.div_le_div_right (Nat.mul_le_mul ha hc)
    _ = 255 := by norm_num
  have hmod : color.alpha * c / 255 % 256 = color.alpha * c / 255 :=
    Nat.mod_eq_of_lt (by omega)
  constructor
  · unfold computeGlyphPixel ColorU8.from_rgba
    rw [hmod]
  · unfold computeGlyphPixel ColorU8.from_rgba ColorU8.premultiply
    simpa using hmod

theorem computeGlyphPixel_spec_witness :
    (computeGlyphPixel ⟨12, 34, 56, 255⟩ 128).alpha = 128 := by
  rw [(computeGlyphPixel_spec ⟨12, 34, 56, 255⟩ 128 (by decide) (by decide)).2]
  decide

/-! Rectangle algebra helpers. -/

lemma inset_half_eq (r : Rect) (s : ℚ) :
    r.inset (s / 2) (s / 2)
      = if s ≤ r.w ∧ s ≤ r.h
        then some ⟨r.x + s / 2, r.y + s / 2, r.w - s, r.h - s⟩ else none := by
  unfold Rect.inset Rect.from_xywh
  by_cases h : s ≤ r.w ∧ s ≤ r.h
  · rw [if_pos ⟨by linarith [h.1], by linarith [h.2]⟩, if_pos h]
    have e3 : r.w - 2 * (s / 2) = r.w - s := by ring
    have e4 : r.h - 2 * (s / 2) = r.h - s := by ring
    rw [e3, e4]
  · have hc : ¬(0 ≤ r.w - 2 * (s / 2) ∧ 0 ≤ r.h - 2 * (s / 2)) := by
      intro hc
      exact h ⟨by linarith [hc.1], by linarith [hc.2]⟩
    rw [if_neg hc, if_neg h]

lemma from_xywh_eq_some {x y w h : ℚ} {r : Rect}
    (hr : Rect.from_xywh x y w h = some r) :
    r = ⟨x, y, w, h⟩ ∧ 0 ≤ w ∧ 0 ≤ h := by
  unfold Rect.from_xywh at hr
  split at hr
  · next hcond =>
    injection hr with hr
    exact ⟨hr.symm, hcond⟩
  · exact absurd hr (by simp)

/-- C5: building from the `Outer` state insets the outer rectangle by
`size / 2` per axis, fails with the `Inset` error exactly when the outer
rectangle is smaller than `size` in either dimension, and otherwise
proceeds as the `Inner`-state build on the inset rectangle. -/
theorem buildOuter_spec (b : Builder OuterBounds) (layout : Layout) :
    (b.buildOuter layout = Except.error Error.Inset
        ↔ b.bounds.rect.w < b.size ∨ b.bounds.rect.h < b.size) ∧
    (∀ r, b.bounds.rect.inset (b.size / 2) (b.size / 2) = some r →
      b.buildOuter layout = Except.ok ((b.bounds_inner_outer r).buildInner layout)) := by
  constructor
  · unfold Builder.buildOuter
    rw [inset_half_eq]
    by_cases h : b.size ≤ b.bounds.rect.w ∧ b.size ≤ b.bounds.rect.h
    · rw [if_pos h]
      constructor
      · intro hcontra
        exact absurd hcontra (by simp)
      · intro hor
        rcases hor with h1 | h1
        · exact absurd h.1 (not_le.mpr h1)
        · exact absurd h.2 (not_le.mpr h1)
    · rw [if_neg h]
      constructor
      · intro _
        rcases not_and_or.mp h with h1 | h1
        · exact Or.inl (not_le.mp h1)
        · exact Or.inr (not_le.mp h1)
      · intro _
        rfl
  · intro r hr
    unfold Builder.buildOuter
    rw [hr]

theorem buildOuter_spec_witness :
    ((Builder.new fontA ['h', 'i']).bounds_outer ⟨0, 0, 4, 4⟩).buildOuter emptyLayout
      = Except.error Error.Inset :=
  (buildOuter_spec _ emptyLayout).1.mpr
    (Or.inl (by norm_num [Builder.bounds_outer, Builder.new, DEFAULT_SIZE]))

/-- C6 counterexample: for a canvas of width 0 (non-positive), `build` from
the `Default` state fails with the `Inset` error, not the `Rect` error —
a zero-extent rectangle is constructible. -/
theorem buildDefault_zero_width_counterexample :
    (Builder.new fontA ['h', 'i']).buildDefault emptyLayout 0 10 = Except.error Error.Inset ∧
    ¬((Builder.new fontA ['h', 'i']).buildDefault emptyLayout 0 10 = Except.error Error.Rect) := by
  have h : (Builder.new fontA ['h', 'i']).buildDefault emptyLayout 0 10
      = Except.error Error.Inset := by
    norm_num [Builder.buildDefault, Builder.new, DEFAULT_SIZE, Rect.from_xywh, Rect.inset]
  refine ⟨h, ?_⟩
  rw [h]
  simp

/-- C6 (amended): `build` from the `Default` state behaves exactly like
constructing `(0, 0, w, h)`, insetting by `size / 2` per axis, then the
infallible `Inner`-state build: it fails with `Rect` exactly when `w` or
`h` is negative (a zero extent is a valid rectangle), fails with `Inset`
exactly when the inset of the constructed rectangle is degenerate, and
otherwise returns `Ok` of the same `TextBox` that
`bounds_inner(inset rect).build(layout)` returns. -/
theorem buildDefault_spec (b : Builder DefaultBounds) (layout : Layout) (cw ch : ℚ) :
    (b.buildDefault layout cw ch = Except.error Error.Rect ↔ cw < 0 ∨ ch < 0) ∧
    (0 ≤ cw → 0 ≤ ch →
      (b.buildDefault layout cw ch = Except.error Error.Inset
        ↔ cw < b.size ∨ ch < b.size)) ∧
    (∀ r0 r1, Rect.from_xywh 0 0 cw ch = some r0 →
      r0.inset (b.size / 2) (b.size / 2) = some r1 →
      b.buildDefault layout cw ch = Except.ok ((b.bounds_inner r1).buildInner layout)) := by
  refine ⟨?_, ?_, ?_⟩
  · unfold Builder.buildDefault Rect.from_xywh
    by_cases h0 : 0 ≤ cw ∧ 0 ≤ ch
    · rw [if_pos h0]
      dsimp only
      rw [inset_half_eq]
      constructor
      · intro hcontra
        by_cases h1 : b.size ≤ cw ∧ b.size ≤ ch
        · rw [if_pos h1] at hcontra
          exact absurd hcontra (by simp)
        · rw [if_neg h1] at hcontra
          exact absurd hcontra (by simp)
      · intro hor
        rcases hor with h1 | h1
        · exact absurd h0.1 (not_le.mpr h1)
        · exact absurd h0.2 (not_le.mpr h1)
    · rw [if_neg h0]
      constructor
      · intro _
        rcases not_and_or.mp h0 with h1 | h1
        · exact Or.inl (not_le.mp h1)
        · exact Or.inr (not_le.mp h1)
      · intro _
        rfl
  · intro hcw hch
    unfold Builder.buildDefault Rect.from_xywh
    rw [if_pos ⟨hcw, hch⟩]
    dsimp only
    rw [inset_half_eq]
    by_cases h1 : b.size ≤ cw ∧ b.size ≤ ch
    · rw [if_pos h1]
      constructor
      · intro hcontra
        exact absurd hcontra (by simp)
      · intro hor
        rcases hor with h | h
        · exact absurd h1.1 (not_le.mpr h)
        · exact absurd h1.2 (not_le.mpr h)
    · rw [if_neg h1]
      constructor
      · intro _
        rcases not_and_or.mp h1 with h | h
        · exact Or.inl (not_le.mp h)
        · exact Or.inr (not_le.mp h)
      · intro _
        rfl
  · intro r0 r1 h0 h1
    unfold Builder.buildDefault
    rw [h0]
    dsimp only
    rw [h1]

theorem buildDefault_spec_witness :
    (Builder.new fontA ['h', 'i']).buildDefault emptyLayout 30 40
      = Except.ok (((Builder.new fontA ['h', 'i']).bounds_inner ⟨12, 12, 6, 16⟩).buildInner
          emptyLayout) :=
  (buildDefault_spec _ emptyLayout 30 40).2.2 ⟨0, 0, 30, 40⟩ ⟨12, 12, 6, 16⟩
    (by decide)
    (by norm_num [Builder.new, DEFAULT_SIZE, Rect.inset, Rect.from_xywh])

lemma rect_inner_ok_extent (t : TextBox) (r : Rect) (h : t.rect_inner = Except.ok r) :
    0 ≤ r.w ∧ 0 ≤ r.h := by
  simp only [TextBox.rect_inner] at h
  split at h
  · next r0 heq =>
    injection h with h
    subst h
    obtain ⟨hr, hw, hh⟩ := from_xywh_eq_some heq
    rw [hr]
    exact ⟨hw, hh⟩
  · exact absurd h (by simp)

/-- C7: for a text box whose inner rectangle is valid and whose size is
non-negative, `rect_outer()` equals `rect_inner()` expanded by `size / 2`
on each axis (the expansion is never degenerate, so the `Outset` error does
not occur), and shrinking the result back by `size / 2` recovers the
`rect_inner()` rectangle exactly. -/
theorem rect_outer_spec (t : TextBox) (r : Rect) (hs : 0 ≤ t.size)
    (h : t.rect_inner = Except.ok r) :
    t.rect_outer = Except.ok ⟨r.x - t.size / 2, r.y - t.size / 2,
        r.w + 2 * (t.size / 2), r.h + 2 * (t.size / 2)⟩ ∧
    Rect.inset ⟨r.x - t.size / 2, r.y - t.size / 2,
        r.w + 2 * (t.size / 2), r.h + 2 * (t.size / 2)⟩ (t.size / 2) (t.size / 2)
      = some r := by
  obtain ⟨hw, hh⟩ := rect_inner_ok_extent t r h
  obtain ⟨rx, ry, rw0, rh0⟩ := r
  dsimp only at hw hh h ⊢
  constructor
  · unfold TextBox.rect_outer
    rw [h]
    dsimp only
    unfold Rect.outset Rect.inset Rect.from_xywh
    dsimp only
    rw [if_pos ⟨by linarith, by linarith⟩]
    dsimp only
    simp only [Except.ok.injEq, Rect.mk.injEq]
    refine ⟨by ring, by ring, by ring, by ring⟩
  · rw [inset_half_eq]
    dsimp only
    rw [if_pos ⟨by linarith, by linarith⟩]
    simp only [Option.some.injEq, Rect.mk.injEq]
    refine ⟨by ring, by ring, by ring, by ring⟩

theorem rect_outer_spec_witness :
    sampleBox.rect_outer
      = Except.ok ⟨0 - 24 / 2, 0 - 24 / 2, 8 + 2 * (24 / 2), 5 + 2 * (24 / 2)⟩ :=
  (rect_outer_spec sampleBox ⟨0, 0, 8, 5⟩ (by norm_num [sampleBox])
    (by norm_num [TextBox.rect_inner, sampleBox, Layout.lines, Layout.height,
      List.max?, Rect.from_xywh])).1

/-! Glyph cache and draw-loop lemmas. -/

lemma cacheGet_append_of_some {cache : GlyphCache} {k : CacheKey} {v : Pixmap}
    (h : cacheGet cache k = some v) (e : CacheKey × Pixmap) :
    cacheGet (cache ++ [e]) k = some v := by
  unfold cacheGet at h ⊢
  rw [List.find?_append]
  cases hf : List.find? (fun x => decide (x.1 = k)) cache with
  | none => rw [hf] at h; simp at h
  | some p =>
    rw [hf] at h
    simpa using h

lemma cacheGet_append_of_ne {cache : GlyphCache} {k : CacheKey} (e : CacheKey × Pixmap)
    (hne : e.1 ≠ k) :
    cacheGet (cache ++ [e]) k = cacheGet cache k := by
  unfold cacheGet
  rw [List.find?_append]
  have hf2 : List.find? (fun x => decide (x.1 = k)) [e] = none := by
    simp [List.find?_cons, hne]
  rw [hf2]
  cases List.find? (fun x => decide (x.1 = k)) cache <;> simp

lemma drawGlyph_state (fonts : List Font) (color : ColorU8) (st : DrawState)
    (g : GlyphPosition) (r : Except Error Unit) (st2 : DrawState)
    (h : drawGlyph fonts color st g = some (r, st2)) :
    st2.2 = st.2 ∨ ∃ pm, st2.2 = st.2 ++ [((g.key, colorKey color), pm)] := by
  unfold drawGlyph at h
  split at h
  · dsimp only at h
    split at h
    · injection h with h
      rw [Prod.mk.injEq] at h
      obtain ⟨-, h2⟩ := h
      subst h2
      exact Or.inl rfl
    · split at h
      · injection h with h
        rw [Prod.mk.injEq] at h
        obtain ⟨-, h2⟩ := h
        subst h2
        exact Or.inl rfl
      · split at h
        · exact absurd h (by simp)
        · injection h with h
          rw [Prod.mk.injEq] at h
          obtain ⟨-, h2⟩ := h
          subst h2
          exact Or.inr ⟨_, rfl⟩
  · injection h with h
    rw [Prod.mk.injEq] at h
    obtain ⟨-, h2⟩ := h
    subst h2
    exact Or.inl rfl

lemma drawLoop_cache (fonts : List Font) (color : ColorU8) :
    ∀ (gs : List GlyphPosition) (st : DrawState) (r : Except Error Unit) (st2 : DrawState),
      drawLoop fonts color gs st = some (r, st2) →
      (∀ k v, cacheGet st.2 k = some v → cacheGet st2.2 k = some v) ∧
      (∀ e ∈ st2.2, e ∈ st.2 ∨ e.1.2 = colorKey color) ∧
      (∀ k, k.2 ≠ colorKey color → cacheGet st2.2 k = cacheGet st.2 k) := by
  intro gs
  induction gs with
  | nil =>
    intro st r st2 h
    unfold drawLoop at h
    injection h with h
    rw [Prod.mk.injEq] at h
    obtain ⟨-, h2⟩ := h
    subst h2
    exact ⟨fun k v hv => hv, fun e he => Or.inl he, fun k _ => rfl⟩
  | cons g gs ih =>
    intro st r st2 h
    unfold drawLoop at h
    cases hstep : drawGlyph fonts color st g with
    | none => rw [hstep] at h; exact absurd h (by simp)
    | some p =>
      obtain ⟨rg, stg⟩ := p
      rw [hstep] at h
      have hs := drawGlyph_state fonts color st g rg stg hstep
      have key_facts : (∀ k v, cacheGet st.2 k = some v → cacheGet stg.2 k = some v) ∧
          (∀ e ∈ stg.2, e ∈ st.2 ∨ e.1.2 = colorKey color) ∧
          (∀ k, k.2 ≠ colorKey color → cacheGet stg.2 k = cacheGet st.2 k) := by
        rcases hs with hc | ⟨pm, hc⟩
        · rw [hc]
          exact ⟨fun k v hv => hv, fun e he => Or.inl he, fun k _ => rfl⟩
        · rw [hc]
          refine ⟨fun k v hv => cacheGet_append_of_some hv _, ?_, ?_⟩
          · intro e he
            rcases List.mem_append.mp he with he2 | he2
            · exact Or.inl he2
            · simp at he2
              subst he2
              exact Or.inr rfl
          · intro k hk
            refine cacheGet_append_of_ne _ ?_
            intro hcontra
            exact hk (by rw [← hcontra])
      cases rg with
      | error e =>
        dsimp only at h
        injection h with h
        rw [Prod.mk.injEq] at h
        obtain ⟨-, h2⟩ := h
        subst h2
        exact key_facts
      | ok u =>
        dsimp only at h
        obtain ⟨ih1, ih2, ih3⟩ := ih stg r st2 h
        refine ⟨fun k v hv => ih1 k v (key_facts.1 k v hv), ?_, ?_⟩
        · intro e he
          rcases ih2 e he with he2 | he2
          · exact key_facts.2.1 e he2
          · exact Or.inr he2
        · intro k hk
          rw [ih3 k hk, key_facts.2.2 k hk]

/-- C4: whatever the result of a draw call, the glyph cache only grows —
every entry present before (first-match lookup) is still found with the
same bitmap afterwards, every entry of the final cache is either an old
entry or keyed by (rasterization key, current tint color as 4 discrete
8-bit channels), and lookups under any key with a different color
component are exactly unchanged (no eviction across colors). -/
theorem draw_cache_monotone (t : TextBox) (canvas : List Blit) (cache : GlyphCache)
    (r : Except Error Unit) (st2 : DrawState)
    (h : t.draw canvas cache = some (r, st2)) :
    (∀ k v, cacheGet cache k = some v → cacheGet st2.2 k = some v) ∧
    (∀ e ∈ st2.2, e ∈ cache ∨ e.1.2 = colorKey t.color) ∧
    (∀ k, k.2 ≠ colorKey t.color → cacheGet st2.2 k = cacheGet cache k) :=
  drawLoop_cache t.fonts t.color t.layout.glyphs (canvas, cache) r st2 h

/-- Pre-populated cache entry fixture. -/
def cachedPix : Pixmap := ⟨1, 1, [⟨3, 3, 3, 3⟩]⟩

/-- A one-entry starting cache, keyed under an unrelated glyph and color. -/
def preCache : GlyphCache := [((⟨5⟩, [9, 9, 9, 9]), cachedPix)]

/-- Text box fixture whose layout reports a single 1-by-2 glyph. -/
def oneGlyphBox : TextBox :=
  { fonts := [fontA], layout := ⟨none, [], none, 0, [⟨⟨7⟩, 0, 1, 2, 1, 2⟩]⟩
    inner_bounds := ⟨0, 0, 10, 10⟩, color := ⟨255, 255, 255, 255⟩, size := 24
    halign := HorizontalAlign.Center, valign := VerticalAlign.Middle }

/-- Bitmap inserted for the 1-by-2 glyph with coverage bytes 0 and 128 and
opaque-white tint. -/
def insPix : Pixmap := ⟨1, 2, [⟨0, 0, 0, 0⟩, ⟨128, 128, 128, 128⟩]⟩

theorem draw_cache_monotone_witness :
    cacheGet (preCache ++ [((({ id := 7 } : GlyphRasterConfig), [255, 255, 255, 255]),
        insPix)]) (({ id := 5 } : GlyphRasterConfig), [9, 9, 9, 9])
      = some cachedPix :=
  (draw_cache_monotone oneGlyphBox [] preCache (Except.ok ())
      ([⟨insPix, 1, 2⟩],
        preCache ++ [((({ id := 7 } : GlyphRasterConfig), [255, 255, 255, 255]), insPix)])
      rfl).1 (({ id := 5 } : GlyphRasterConfig), [9, 9, 9, 9]) cachedPix (by decide)

lemma zipEq_of_length_eq {α β : Type} :
    ∀ (xs : List α) (ys : List β), xs.length = ys.length →
      ∃ ps, zipEq xs ys = some ps := by
  intro xs
  induction xs with
  | nil =>
    intro ys h
    cases ys with
    | nil => exact ⟨[], rfl⟩
    | cons y ys => simp at h
  | cons x xs ih =>
    intro ys h
    cases ys with
    | nil => simp at h
    | cons y ys =>
      simp only [List.length_cons, Nat.add_right_cancel_iff] at h
      obtain ⟨ps, hps⟩ := ih ys h
      refine ⟨(x, y) :: ps, ?_⟩
      unfold zipEq
      rw [hps]
      rfl

lemma drawGlyph_skip (fonts : List Font) (color : ColorU8) (st : DrawState)
    (g : GlyphPosition) (h : ¬(0 < g.width ∧ 0 < g.height)) :
    drawGlyph fonts color st g = some (Except.ok (), st) := by
  unfold drawGlyph
  rw [if_neg h]

lemma drawGlyph_ne_error (fonts : List Font) (color : ColorU8) (st : DrawState)
    (g : GlyphPosition) (e : Error) (st2 : DrawState) :
    drawGlyph fonts color st g ≠ some (Except.error e, st2) := by
  intro h
  unfold drawGlyph at h
  split at h
  · next hpos =>
    dsimp only at h
    split at h
    · injection h with h
      rw [Prod.mk.injEq] at h
      exact absurd h.1 (by simp)
    · split at h
      · next hpm =>
        unfold Pixmap.new at hpm
        rw [if_pos hpos] at hpm
        exact absurd hpm (by simp)
      · split at h
        · exact absurd h (by simp)
        · injection h with h
          rw [Prod.mk.injEq] at h
          exact absurd h.1 (by simp)
  · injection h with h
    rw [Prod.mk.injEq] at h
    exact absurd h.1 (by simp)

lemma drawGlyph_ok_exists (fonts : List Font) (color : ColorU8) (st : DrawState)
    (g : GlyphPosition) (hw : 0 < g.width) (hh : 0 < g.height)
    (hlen : ((fonts.getD g.font_index defaultFont).rasterize_config g.key).length
      = g.width * g.height) :
    ∃ st2, drawGlyph fonts color st g = some (Except.ok (), st2) := by
  unfold drawGlyph
  rw [if_pos ⟨hw, hh⟩]
  dsimp only
  cases hc : cacheGet st.2 (g.key, colorKey color) with
  | some pm => exact ⟨_, rfl⟩
  | none =>
    have hpm : Pixmap.new g.width g.height
        = some ⟨g.width, g.height, List.replicate (g.width * g.height) ⟨0, 0, 0, 0⟩⟩ := by
      unfold Pixmap.new
      rw [if_pos ⟨hw, hh⟩]
    rw [hpm]
    dsimp only
    obtain ⟨ps, hps⟩ := zipEq_of_length_eq
      ((fonts.getD g.font_index defaultFont).rasterize_config g.key)
      (List.replicate (g.width * g.height) (⟨0, 0, 0, 0⟩ : PremultipliedColorU8))
      (by simpa using hlen)
    rw [hps]
    exact ⟨_, rfl⟩

lemma drawLoop_filter (fonts : List Font) (color : ColorU8) :
    ∀ (gs : List GlyphPosition) (st : DrawState),
      drawLoop fonts color gs st
        = drawLoop fonts color
            (gs.filter (fun g => decide (0 < g.width ∧ 0 < g.height))) st := by
  intro gs
  induction gs with
  | nil => intro st; rfl
  | cons g gs ih =>
    intro st
    by_cases hg : 0 < g.width ∧ 0 < g.height
    · rw [List.filter_cons_of_pos (by simpa using hg)]
      unfold drawLoop
      cases hstep : drawGlyph fonts color st g with
      | none => rfl
      | some p =>
        obtain ⟨rg, stg⟩ := p
        cases rg with
        | error e => rfl
        | ok u => exact ih stg
    · rw [List.filter_cons_of_neg (by simpa using hg)]
      conv_lhs => rw [drawLoop]
      rw [drawGlyph_skip fonts color st g hg]
      exact ih st

lemma drawLoop_ne_error (fonts : List Font) (color : ColorU8) :
    ∀ (gs : List GlyphPosition) (st : DrawState) (e : Error) (st2 : DrawState),
      drawLoop fonts color gs st ≠ some (Except.error e, st2) := by
  intro gs
  induction gs with
  | nil =>
    intro st e st2 h
    unfold drawLoop at h
    injection h with h
    rw [Prod.mk.injEq] at h
    exact absurd h.1 (by simp)
  | cons g gs ih =>
    intro st e st2 h
    unfold drawLoop at h
    cases hstep : drawGlyph fonts color st g with
    | none => rw [hstep] at h; exact absurd h (by simp)
    | some p =>
      obtain ⟨rg, stg⟩ := p
      rw [hstep] at h
      cases rg with
      | error e2 => exact absurd hstep (drawGlyph_ne_error fonts color st g e2 stg)
      | ok u =>
        dsimp only at h
        exact ih stg e st2 h

lemma drawLoop_ok (fonts : List Font) (color : ColorU8) :
    ∀ (gs : List GlyphPosition) (st : DrawState),
      (∀ g ∈ gs, 0 < g.width → 0 < g.height →
        ((fonts.getD g.font_index defaultFont).rasterize_config g.key).length
          = g.width * g.height) →
      ∃ st2, drawLoop fonts color gs st = some (Except.ok (), st2) := by
  intro gs
  induction gs with
  | nil => intro st _; exact ⟨st, rfl⟩
  | cons g gs ih =>
    intro st hc
    by_cases hg : 0 < g.width ∧ 0 < g.height
    · obtain ⟨stg, hstep⟩ := drawGlyph_ok_exists fonts color st g hg.1 hg.2
        (hc g (List.mem_cons_self g gs) hg.1 hg.2)
      obtain ⟨st2, h2⟩ := ih stg (fun g2 hg2 => hc g2 (List.mem_cons_of_mem _ hg2))
      refine ⟨st2, ?_⟩
      unfold drawLoop
      rw [hstep]
      exact h2
    · obtain ⟨st2, h2⟩ := ih st (fun g2 hg2 => hc g2 (List.mem_cons_of_mem _ hg2))
      refine ⟨st2, ?_⟩
      unfold drawLoop
      rw [drawGlyph_skip fonts color st g hg]
      exact h2

/-- C9: zero-area glyphs are skipped entirely by draw (the loop over the
reported glyphs equals the loop over only the positive-area ones — no
rasterization, cache access or compositing for the rest), the
`GlyphPixmap` error never occurs, and under the rasterizer contract
(coverage data of length width times height for every drawn glyph) the
draw call returns `Ok`. -/
theorem draw_skip_and_ok (t : TextBox) (canvas : List Blit) (cache : GlyphCache) :
    t.draw canvas cache
        = drawLoop t.fonts t.color
            (t.layout.glyphs.filter (fun g => decide (0 < g.width ∧ 0 < g.height)))
            (canvas, cache) ∧
    (∀ e st2, t.draw canvas cache ≠ some (Except.error e, st2)) ∧
    ((∀ g ∈ t.layout.glyphs, 0 < g.width → 0 < g.height →
        ((t.fonts.getD g.font_index defaultFont).rasterize_config g.key).length
          = g.width * g.height) →
      (t.draw canvas cache).map Prod.fst = some (Except.ok ())) := by
  refine ⟨drawLoop_filter _ _ _ _, fun e st2 => drawLoop_ne_error _ _ _ _ e st2,
    fun hc => ?_⟩
  obtain ⟨st2, h2⟩ := drawLoop_ok t.fonts t.color t.layout.glyphs (canvas, cache) hc
  show (drawLoop t.fonts t.color t.layout.glyphs (canvas, cache)).map Prod.fst = _
  rw [h2]
  rfl

/-- Text box fixture with one drawable 1-by-2 glyph and one zero-width
glyph. -/
def drawBox : TextBox :=
  { fonts := [fontA]
    layout := ⟨none, [], none, 0, [⟨⟨7⟩, 0, 1, 2, 1, 2⟩, ⟨⟨8⟩, 0, 3, 4, 0, 5⟩]⟩
    inner_bounds := ⟨0, 0, 10, 10⟩, color := ⟨10, 20, 30, 255⟩, size := 24
    halign := HorizontalAlign.Center, valign := VerticalAlign.Middle }

theorem draw_skip_and_ok_witness :
    (drawBox.draw [] []).map Prod.fst = some (Except.ok ()) :=
  (draw_skip_and_ok drawBox [] []).2.2 (by decide)

end Text
